import Mathlib

/-!
Verification of the core tree-comparison engine of the semi-structured
document comparison and differencing tool (`src/scripts/processing.py`).

The shallow embedding below translates the Python functions into Lean:
lists stand for Python lists, `Except Err` for code paths that raise a
Python exception, and explicit state passing for the mutated dictionary
accumulated by `rename`.  Depths are Python integers, modelled as `Int`.
-/

namespace DocDiff

/-- A node label: either a plain tag string or a two-element
`[attributeName, attributeValue]` pair (as produced by
`preprocessing.preprocess_xml`). -/
inductive Label where
  | str : String → Label
  | attr : String → String → Label
deriving DecidableEq, Repr, Inhabited

/-- One linearized node, the Python list `[parent_tag, label, depth]`,
with an optional fourth `text` entry that is present exactly in the
text-aware (`wagner`) preprocessing mode.  Python compares these node
lists by value, which the derived `DecidableEq` mirrors. -/
structure Node where
  parent : String
  label : Label
  depth : Int
  text : Option String
deriving DecidableEq, Repr, Inhabited

/-- Python exception kinds raised by the modelled code paths.
`emptyTreeError` is named by the spec only: the source defines no such
class and never raises it (an empty input hits the builtin `IndexError`
at `tree[0][2]`); the constructor exists so that the spec's statement
about it can be expressed. -/
inductive Err where
  | indexError
  | nameError
  | typeError
  | emptyTreeError
deriving DecidableEq, Repr

/-- The scanning loop of `subTrees` (`processing.py` lines 52-62):
`cur` is `current_subtree`, `level` is `current_level`, `acc` is the
caller-supplied output list being appended to. -/
def subTreesLoop : List Node → List Node → Int → List (List Node) → List (List Node)
  | [], cur, _, acc => if cur = [] then acc else acc ++ [cur]
  | n :: rest, cur, level, acc =>
    if n.depth ≥ level then
      subTreesLoop rest (cur ++ [n]) level acc
    else
      subTreesLoop rest [n] n.depth (if cur = [] then acc else acc ++ [cur])

/-- `subTrees` (`processing.py` lines 45-62).  The Python function
mutates its second argument; the model returns the appended fragments.
On an empty tree the initialisation `current_level = tree[0][2]` raises
`IndexError`. -/
def subTrees (tree : List Node) : Except Err (List (List Node)) :=
  match tree with
  | [] => .error .indexError
  | t0 :: _ => .ok (subTreesLoop tree [] t0.depth [])

/-- Base depth of a fragment: the Python code reads `fragment[0][2]`.
The extractor only ever produces non-empty fragments, so the default for
an empty list is never exercised by the modelled program. -/
def baseDepth (f : List Node) : Int := (f.headD default).depth

/-- Scan for Python `str.split()`: collect maximal runs of
non-whitespace characters. -/
def pySplitAux : List Char → List Char → List String → List String
  | [], curWord, acc => if curWord = [] then acc else acc ++ [String.mk curWord]
  | c :: rest, curWord, acc =>
    if c.isWhitespace then
      pySplitAux rest [] (if curWord = [] then acc else acc ++ [String.mk curWord])
    else pySplitAux rest (curWord ++ [c]) acc

/-- Python `str.split()` with no argument: split on runs of whitespace,
discarding empty pieces. -/
def pySplit (s : String) : List String := pySplitAux s.data [] []

/-- `wfCostUpdate` (`processing.py` lines 38-43): substituting equal words
costs 1, unequal words cost the absolute difference of their lengths. -/
def wfCostUpdate (wordA wordB : String) : Int :=
  if wordA = wordB then 1
  else |(wordA.length : Int) - (wordB.length : Int)|

/-- Row 0 of the Wagner-Fisher matrix (`Dist[0][j]`, lines 25-26):
prefix sums of the insertion costs `len(wordsB[j-1])`. -/
def wfRow0 (wordsB : List String) : Nat → Int
  | 0 => 0
  | j + 1 => wfRow0 wordsB j + ((wordsB.getD j "").length : Int)

/-- Row `i+1` of the Wagner-Fisher matrix computed from row `i` (`prev`);
cell `j` is `Dist[i+1][j]` of `processing.py` lines 23-34, with the same
`min(diagonal + substitution, above + deletion, left + insertion)`
recurrence. -/
def wfRowStep (wordsA wordsB : List String) (i : Nat) (prev : Nat → Int) : Nat → Int
  | 0 => prev 0 + ((wordsA.getD i "").length : Int)
  | j + 1 =>
    min (min (prev j + wfCostUpdate (wordsA.getD i "") (wordsB.getD j ""))
        (prev (j + 1) + ((wordsA.getD i "").length : Int)))
      (wfRowStep wordsA wordsB i prev j + ((wordsB.getD j "").length : Int))

/-- The full matrix, row by row: `wfRow A B i j = Dist[i][j]`. -/
def wfRow (wordsA wordsB : List String) : Nat → Nat → Int
  | 0 => wfRow0 wordsB
  | i + 1 => wfRowStep wordsA wordsB i (wfRow wordsA wordsB i)

/-- `wagnerFisher` (`processing.py` lines 11-36) on two strings.  Python
returns the pair `(Dist, Dist[M][N])`; the model returns the bottom-right
total cost (the matrix cell `(i, j)` is `wfRow wordsA wordsB i j`).
Non-string inputs are turned into empty word lists by the `isinstance`
guards; the model takes strings only — the one call site that passes
non-strings (`compare_nodes` in text-aware mode) is modelled separately. -/
def wagnerFisher (stringA stringB : String) : Int :=
  let wordsA := pySplit stringA
  let wordsB := pySplit stringB
  wfRow wordsA wordsB wordsA.length wordsB.length

/-- `nodeDist` (`processing.py` lines 122-132): unit cost between two
optional nodes — 1 when either is absent, otherwise 0 iff the `label`
fields (`node[1]`) are equal.  The `isinstance` branch for list labels
returns the same expression as the default branch, so a single equality
test is faithful. -/
def nodeDist (nodeA nodeB : Option Node) : Nat :=
  match nodeA, nodeB with
  | none, _ => 1
  | _, none => 1
  | some a, some b => if a.label = b.label then 0 else 1

/-- Substitution cost at matrix cell `(i, j)` of `treeDist`. -/
def tdUpd (treeA treeB : List Node) (i j : Nat) : Nat :=
  nodeDist (some (treeA.getD i default)) (some (treeB.getD j default))

/-- Deletion cost of node `i` of `treeA` (`nodeDist(treeA[i], None)`). -/
def tdDel (treeA : List Node) (i : Nat) : Nat :=
  nodeDist (some (treeA.getD i default)) none

/-- Insertion cost of node `j` of `treeB` (`nodeDist(None, treeB[j])`). -/
def tdIns (treeB : List Node) (j : Nat) : Nat :=
  nodeDist none (some (treeB.getD j default))

/-- Row 0 of the `treeDist` cost matrix (`processing.py` lines 110-118 at
`i = 0`): the `i > 0` option is `float('inf')` and drops out of the
minimum, leaving substitution and, for `j > 0`, insertion plus the left
cell. -/
def tdRow0 (treeA treeB : List Node) : Nat → Nat
  | 0 => tdUpd treeA treeB 0 0
  | j + 1 => min (tdUpd treeA treeB 0 (j + 1)) (tdIns treeB (j + 1) + tdRow0 treeA treeB j)

/-- Row `i+1` of the `treeDist` cost matrix from row `i` (`prev`),
mirroring `min(update, delete + above, insert + left)` with the
`float('inf')` guards of the first column dropping the absent option. -/
def tdRowStep (treeA treeB : List Node) (i : Nat) (prev : Nat → Nat) : Nat → Nat
  | 0 => min (tdUpd treeA treeB (i + 1) 0) (tdDel treeA (i + 1) + prev 0)
  | j + 1 =>
    min (tdUpd treeA treeB (i + 1) (j + 1))
      (min (tdDel treeA (i + 1) + prev (j + 1))
        (tdIns treeB (j + 1) + tdRowStep treeA treeB i prev j))

/-- The `treeDist` matrix, row by row: `tdRowF A B i j = costMatrix[i][j]`. -/
def tdRowF (treeA treeB : List Node) : Nat → Nat → Nat
  | 0 => tdRow0 treeA treeB
  | i + 1 => tdRowStep treeA treeB i (tdRowF treeA treeB i)

/-- A `treeDist` result: every matrix entry is a non-negative integer
(the Python floats `0.0`/`1.0` and their sums), and `float('inf')` is the
distance to an empty fragment. -/
inductive Cost where
  | fin : Nat → Cost
  | inf : Cost
deriving DecidableEq, Repr

/-- `treeDist` (`processing.py` lines 101-120): `float('inf')` when either
fragment is empty, otherwise the bottom-right cell `costMatrix[-1][-1]`. -/
def treeDist (treeA treeB : List Node) : Cost :=
  if treeA = [] ∨ treeB = [] then .inf
  else .fin (tdRowF treeA treeB (treeA.length - 1) (treeB.length - 1))

/-- The record stored under one identity by `rename`
(`processing.py` lines 74-78): parent identity (empty string at top
level), owned fragment, and the ordered child identities. -/
structure TreeRec where
  parent : String
  tree : List Node
  children : List String
deriving DecidableEq, Repr, Inhabited

/-- An insertion-ordered Python dictionary from identity to record. -/
abbrev TreeDict := List (String × TreeRec)

/-- Python `dictionary[k] = v`: overwriting an existing key keeps its
insertion position, a fresh key is appended. -/
def dictSet (d : TreeDict) (k : String) (v : TreeRec) : TreeDict :=
  if (d.map Prod.fst).contains k then
    d.map (fun p => if p.1 = k then (k, v) else p)
  else d ++ [(k, v)]

/-- Python `dictionary[k]` for reading.  The modelled program looks up
only keys that are present; the default is never exercised. -/
def dictGet (d : TreeDict) (k : String) : TreeRec :=
  ((d.find? (fun p => p.1 = k)).map Prod.snd).getD default

/-- Python `dictionary[k]['children'].append(c)` (in place). -/
def dictAppendChild (d : TreeDict) (k : String) (c : String) : TreeDict :=
  d.map (fun p =>
    if p.1 = k then (p.1, { p.2 with children := p.2.children ++ [c] }) else p)

mutual
/-- `rename` (`processing.py` lines 64-87).  The Python `prefix`
parameter is a Lean keyword and is called `pre` here.  Registers
`prefix + str(index)` for the fragment at `index`, appends it to the
parent's child list when a parent was passed (`if parent:` tests for a
non-empty string), then runs the sibling scan of lines 83-87. -/
def rename (trees : List (List Node)) (index : Nat) (parent pre : String)
    (dictionary : TreeDict) : TreeDict :=
  if h : index < trees.length then
    let current := trees.get ⟨index, h⟩
    let newName := pre ++ toString index
    let d1 := dictSet dictionary newName ⟨parent, current, []⟩
    let d2 := if parent ≠ "" then dictAppendChild d1 parent newName else d1
    renameLoop trees (index + 1) (baseDepth current) newName pre d2
  else dictionary
termination_by (trees.length - index, 1)

/-- The `for i in range(index + 1, len(trees))` scan of `rename`
(lines 83-87): recurse into each following fragment whose base depth is
strictly greater than the current fragment's, `break` at the first one
that is not. -/
def renameLoop (trees : List (List Node)) (i : Nat) (curDepth : Int)
    (newName pre : String) (dictionary : TreeDict) : TreeDict :=
  if h : i < trees.length then
    if baseDepth (trees.get ⟨i, h⟩) > curDepth then
      renameLoop trees (i + 1) curDepth newName pre
        (rename trees i newName pre dictionary)
    else dictionary
  else dictionary
termination_by (trees.length - i, 2)
end

/-- `calculateCosts` (`processing.py` lines 89-99): for every identity of
the source map, the distance of its fragment to every fragment of the
other tree.  Python keys the inner mapping by `str(target_tree)`; the
model keys it by the fragment itself. -/
def calculateCosts (dict_source : TreeDict) (trees_target : List (List Node)) :
    List (String × List ((List Node) × Cost)) :=
  dict_source.map (fun p => (p.1, trees_target.map (fun t => (t, treeDist p.2.tree t))))

/-- The `while stack:` loop of `toList` (`processing.py` lines 141-144):
pop from the end of the stack, append to the result, push the reversed
child list.  Python's loop terminates because every dictionary built by
`rename` links a name only to names with strictly larger indices; the
fuel argument makes that bound explicit, and `toListFuel` below is exact
for forest-shaped dictionaries (each push is a distinct root or child
occurrence), which covers every dictionary this program traverses. -/
def toListStep (d : TreeDict) : Nat → List String → List String → List String
  | 0, _, result => result
  | fuel + 1, stack, result =>
    match stack.getLast? with
    | none => result
    | some current =>
      toListStep d fuel (stack.dropLast ++ (dictGet d current).children.reverse)
        (result ++ [current])

/-- Iteration bound for `toListStep`: one pop per entry plus one per
child occurrence plus the final empty-stack check. -/
def toListFuel (d : TreeDict) : Nat :=
  d.length + (d.map (fun p => p.2.children.length)).sum + 1

/-- `toList` (`processing.py` lines 134-146): seed the stack with the
identities whose `parent` is falsy (the empty string) and run the loop. -/
def toList (d : TreeDict) : List String :=
  toListStep d (toListFuel d) ((d.filter (fun p => p.2.parent = "")).map Prod.fst) []

/-- One edit operation: the Python tuples `('update', a, b)`,
`('delete', a, None)`, `('insert', None, b)` whose payloads, as produced
by `process_trees`, are fragments (node lists). -/
inductive EditOp where
  | update : List Node → List Node → EditOp
  | delete : List Node → EditOp
  | insert : List Node → EditOp
deriving DecidableEq, Repr

/-- The tag of an edit operation, for comparing scripts structurally. -/
inductive OpKind where
  | update
  | delete
  | insert
deriving DecidableEq, Repr

/-- Kind of an edit operation. -/
def opKind : EditOp → OpKind
  | .update _ _ => .update
  | .delete _ => .delete
  | .insert _ => .insert

/-- `compare_nodes` (`processing.py` lines 154-161).  Its arguments are
the `'tree'` entries of the two dictionaries, i.e. fragments, so
`nodeA[1]` is the fragment's second node (`IndexError` when a fragment
has fewer than two nodes).  In the `'wagner'` branch Python unpacks
`dist, _ = wagnerFisher(nodeA[3], nodeB[3])`, making `dist` the distance
matrix (a list), and `if dist > 0:` then raises `TypeError`: a list and
an integer are not ordered in Python 3. -/
def compare_nodes (fragA fragB : List Node) (algorithm : String) :
    Except Err (List EditOp) :=
  if h1 : 1 < fragA.length then
    if h2 : 1 < fragB.length then
      if fragA.get ⟨1, h1⟩ ≠ fragB.get ⟨1, h2⟩ then
        if algorithm = "wagner" ∧ 3 < fragA.length ∧ 3 < fragB.length then
          .error .typeError
        else .ok [.update fragA fragB]
      else .ok []
    else .error .indexError
  else .error .indexError

/-- The first loop of `process_trees` (`processing.py` lines 167-169):
emit a delete for every identity of `listA` that is not a member — as a
string — of `listB`. -/
def ptDeleteLoop (dictA : TreeDict) (listB : List String) :
    List String → List EditOp → List EditOp
  | [], acc => acc
  | nodeA :: rest, acc =>
    if nodeA ∈ listB then ptDeleteLoop dictA listB rest acc
    else ptDeleteLoop dictA listB rest (acc ++ [.delete (dictGet dictA nodeA).tree])

/-- The second loop of `process_trees` (lines 171-175): emit an insert
for every identity of `listB` not in `listA`; otherwise Python calls
`compare_nodes(dictA[nodeA]['tree'], ...)` with `nodeA` the leftover
loop variable of the delete pass — the last element of `listA`
(`NameError` if `listA` was empty and the name was never bound). -/
def ptInsertLoop (dictA dictB : TreeDict) (algorithm : String)
    (listA : List String) (leftoverA : Option String) :
    List String → List EditOp → Except Err (List EditOp)
  | [], acc => .ok acc
  | nodeB :: rest, acc =>
    if nodeB ∈ listA then
      match leftoverA with
      | none => .error .nameError
      | some a =>
        match compare_nodes (dictGet dictA a).tree (dictGet dictB nodeB).tree algorithm with
        | .error e => .error e
        | .ok ops => ptInsertLoop dictA dictB algorithm listA leftoverA rest (acc ++ ops)
    else
      ptInsertLoop dictA dictB algorithm listA leftoverA rest
        (acc ++ [.insert (dictGet dictB nodeB).tree])

/-- `process_trees` (`processing.py` lines 163-175): flatten both maps
and run the delete pass followed by the insert/compare pass. -/
def process_trees (dictA dictB : TreeDict) (algorithm : String) :
    Except Err (List EditOp) :=
  let listA := toList dictA
  let listB := toList dictB
  let afterDeletes := ptDeleteLoop dictA listB listA []
  ptInsertLoop dictA dictB algorithm listA listA.getLast? listB afterDeletes

/-- `generateEditScript` (`processing.py` lines 148-178): initialise the
script and run `process_trees` over the two named-tree maps. -/
def generateEditScript (treeA treeB : TreeDict) (algorithm : String) :
    Except Err (List EditOp) :=
  process_trees treeA treeB algorithm

/-- `run` (`processing.py` lines 180-206): extract and index both trees
(prefixes `'A'` and `'B'`), build the cost matrices and flattened lists
(computed but not consulted by the generator), and generate the script. -/
def run (tree1 tree2 : List Node) (algorithm : String) : Except Err (List EditOp) :=
  match subTrees tree1 with
  | .error e => .error e
  | .ok sA =>
    match subTrees tree2 with
    | .error e => .error e
    | .ok sB =>
      let dictA := rename sA 0 "" "A" []
      let dictB := rename sB 0 "" "B" []
      let _dictCostsA := calculateCosts dictA sB
      let _dictCostsB := calculateCosts dictB sA
      let _ListofTreesA := toList dictA
      let _ListofTreesB := toList dictB
      generateEditScript dictA dictB algorithm

/-- The loop of `patch` (`processing.py` lines 218-227): append the
target payload of every update and insert, skip deletes. -/
def patchLoop : List EditOp → List (List Node) → List (List Node)
  | [], acc => acc
  | op :: rest, acc =>
    match op with
    | .update _ t => patchLoop rest (acc ++ [t])
    | .insert t => patchLoop rest (acc ++ [t])
    | .delete _ => patchLoop rest acc

/-- `patch` (`processing.py` lines 208-227). -/
def patch (edit_script : List EditOp) : List (List Node) :=
  patchLoop edit_script []

/-- The first fragment the extractor produces from a non-empty tree: the
head node together with the following nodes of depth ≥ the head's depth. -/
def firstFragment : List Node → List Node
  | [] => []
  | a :: r => a :: r.takeWhile (fun n => n.depth ≥ a.depth)

/-- Apply a label permutation to a label: tag names and both attribute
components are renamed. -/
def relabelLabel (b : String → String) : Label → Label
  | .str s => .str (b s)
  | .attr n v => .attr (b n) (b v)

/-- Apply the same label permutation to a node's parent label and its own
label; depth and text are untouched. -/
def relabelNode (b : String → String) (n : Node) : Node :=
  { n with parent := b n.parent, label := relabelLabel b n.label }

/-- Sample node: element `a` at the document root (`["0", "a", 0]`). -/
def nodeA0 : Node := ⟨"0", .str "a", 0, none⟩

/-- Sample node: terminal marker of `a` (`["a", "0", 1]`). -/
def nodeATerm : Node := ⟨"a", .str "0", 1, none⟩

/-- Sample node: element `b` under `a` (`["a", "b", 1]`). -/
def nodeB1 : Node := ⟨"a", .str "b", 1, none⟩

/-- Sample node: terminal marker of `b` (`["b", "0", 2]`). -/
def nodeBTerm : Node := ⟨"b", .str "0", 2, none⟩

/-- Sample node: element `b` at the document root (`["0", "b", 0]`). -/
def nodeRootB : Node := ⟨"0", .str "b", 0, none⟩

/-! ## Helper lemmas -/

/-- Concatenating the fragments emitted by the scanning loop gives back the
accumulator's contents followed by the open fragment and the unscanned input. -/
theorem subTreesLoop_flatten (ns : List Node) :
    ∀ (cur : List Node) (level : Int) (acc : List (List Node)),
      (subTreesLoop ns cur level acc).flatten = acc.flatten ++ cur ++ ns := by
  induction ns with
  | nil =>
    intro cur level acc
    by_cases hcur : cur = []
    · simp [subTreesLoop, hcur]
    · simp [subTreesLoop, hcur]
  | cons n rest ih =>
    intro cur level acc
    by_cases hd : n.depth ≥ level
    · simp only [subTreesLoop, if_pos hd]
      rw [ih]
      simp
    · simp only [subTreesLoop, if_neg hd]
      rw [ih]
      by_cases hcur : cur = []
      · simp [hcur]
      · simp [hcur]

/-- Emitted fragments with the accumulator split off. -/
theorem subTreesLoop_acc (ns : List Node) :
    ∀ (cur : List Node) (level : Int) (acc : List (List Node)),
      subTreesLoop ns cur level acc = acc ++ subTreesLoop ns cur level [] := by
  induction ns with
  | nil =>
    intro cur level acc
    by_cases hcur : cur = []
    · simp [subTreesLoop, hcur]
    · simp [subTreesLoop, hcur]
  | cons n rest ih =>
    intro cur level acc
    by_cases hd : n.depth ≥ level
    · simp only [subTreesLoop, if_pos hd]
      rw [ih]
    · simp only [subTreesLoop, if_neg hd]
      rw [ih, ih [n] n.depth (if cur = [] then [] else [] ++ [cur])]
      by_cases hcur : cur = []
      · simp [hcur]
      · simp [hcur]

/-- Shape of the scanning loop's output when a fragment is already open:
the open fragment absorbs the longest prefix of nodes at depth ≥ `level`,
and any following fragment starts at a strictly shallower node. -/
theorem subTreesLoop_cons (ns : List Node) :
    ∀ (cur : List Node) (level : Int), cur ≠ [] →
      ∃ rest, subTreesLoop ns cur level [] =
          (cur ++ ns.takeWhile (fun n => n.depth ≥ level)) :: rest ∧
        (rest = [] ∨ ∃ f1 rest2, rest = f1 :: rest2 ∧ baseDepth f1 < level) := by
  induction ns with
  | nil =>
    intro cur level hcur
    refine ⟨[], ?_, Or.inl rfl⟩
    simp [subTreesLoop, hcur]
  | cons n rest ih =>
    intro cur level hcur
    by_cases hd : n.depth ≥ level
    · obtain ⟨tail, htail, hside⟩ := ih (cur ++ [n]) level (by simp)
      refine ⟨tail, ?_, hside⟩
      simp only [subTreesLoop, if_pos hd]
      rw [htail]
      simp [List.takeWhile, decide_eq_true hd]
    · obtain ⟨tail, htail, _⟩ := ih [n] n.depth (by simp)
      refine ⟨subTreesLoop rest [n] n.depth [], ?_, ?_⟩
      · simp only [subTreesLoop, if_neg hd, if_neg hcur]
        rw [subTreesLoop_acc]
        have : (n :: rest).takeWhile (fun m => m.depth ≥ level) = [] := by
          simp [List.takeWhile, hd]
        rw [this]
        simp
      · right
        refine ⟨[n] ++ rest.takeWhile (fun m => m.depth ≥ n.depth), tail, htail, ?_⟩
        simp only [baseDepth, List.cons_append, List.headD_cons]
        omega

/-- Diagonal cells of the cost matrix of a fragment against itself are 0:
the substitution option compares a label with itself. -/
theorem tdRowF_diag (t : List Node) : ∀ i : Nat, tdRowF t t i i = 0 := by
  intro i
  cases i with
  | zero => simp [tdRowF, tdRow0, tdUpd, nodeDist]
  | succ k => simp [tdRowF, tdRowStep, tdUpd, nodeDist]

/-- Started at position 0 with no parent, `rename` indexes only the first
fragment whenever the second fragment (if any) does not descend strictly
below the first one's base depth — which is always the case for the
extractor's output, whose base depths strictly decrease. -/
theorem rename_single (f0 : List Node) (rest : List (List Node)) (pre : String)
    (hrest : rest = [] ∨ ∃ f1 rest2, rest = f1 :: rest2 ∧ ¬ baseDepth f1 > baseDepth f0) :
    rename (f0 :: rest) 0 "" pre [] = [(pre ++ "0", ⟨"", f0, []⟩)] := by
  have hts : (toString (0 : Nat)) = "0" := rfl
  rw [rename]
  simp only [List.length_cons, Nat.zero_lt_succ, dif_pos, List.get, hts]
  rw [renameLoop]
  rcases hrest with h0 | ⟨f1, rest2, hr, hle⟩
  · subst h0
    simp [dictSet]
  · subst hr
    simp [dictSet, hle]

/-- `toList` of a single-entry dictionary holding a root with no
children. -/
theorem toList_single (k : String) (f : List Node) :
    toList [(k, ⟨"", f, []⟩)] = [k] := by
  simp [toList, toListFuel, toListStep, dictGet]

/-- The generator on the two single-identity maps that `run` always
builds: the name `"A0"` is not a member of `["B0"]` and vice versa, so
the source fragment is deleted and the target fragment inserted. -/
theorem process_trees_single (fA fB : List Node) (alg : String) :
    process_trees [("A0", ⟨"", fA, []⟩)] [("B0", ⟨"", fB, []⟩)] alg =
      .ok [.delete fA, .insert fB] := rfl

/-- The extractor's output on a non-empty tree: the first fragment is
`firstFragment`, and any following fragment starts strictly above the
root's base depth. -/
theorem subTrees_shape (t0 : Node) (r : List Node) :
    ∃ rest, subTrees (t0 :: r) = .ok (firstFragment (t0 :: r) :: rest) ∧
      (rest = [] ∨ ∃ f1 r2, rest = f1 :: r2 ∧ baseDepth f1 < t0.depth) := by
  have h1 : subTreesLoop (t0 :: r) [] t0.depth [] = subTreesLoop r [t0] t0.depth [] := by
    simp [subTreesLoop]
  obtain ⟨rest, hrest, hside⟩ := subTreesLoop_cons r [t0] t0.depth (by simp)
  refine ⟨rest, ?_, hside⟩
  simp only [subTrees, h1, hrest, firstFragment]
  rfl

/-- What `run` produces on any pair of non-empty trees: the indexer
registers exactly one identity per side (`"A0"` and `"B0"`), the
name-based membership tests both fail, and the script is one delete of
the source's first fragment followed by one insert of the target's. -/
theorem run_script (t u : List Node) (alg : String) (ht : t ≠ []) (hu : u ≠ []) :
    run t u alg = .ok [.delete (firstFragment t), .insert (firstFragment u)] := by
  obtain ⟨t0, r, rfl⟩ := List.exists_cons_of_ne_nil ht
  obtain ⟨u0, s, rfl⟩ := List.exists_cons_of_ne_nil hu
  obtain ⟨restA, hA, hsA⟩ := subTrees_shape t0 r
  obtain ⟨restB, hB, hsB⟩ := subTrees_shape u0 s
  have hffA : baseDepth (firstFragment (t0 :: r)) = t0.depth := by
    simp [firstFragment, baseDepth]
  have hffB : baseDepth (firstFragment (u0 :: s)) = u0.depth := by
    simp [firstFragment, baseDepth]
  have hsA2 : restA = [] ∨ ∃ f1 r2, restA = f1 :: r2 ∧
      ¬ baseDepth f1 > baseDepth (firstFragment (t0 :: r)) := by
    rcases hsA with h | ⟨f1, r2, hr, hlt⟩
    · exact Or.inl h
    · exact Or.inr ⟨f1, r2, hr, by omega⟩
  have hsB2 : restB = [] ∨ ∃ f1 r2, restB = f1 :: r2 ∧
      ¬ baseDepth f1 > baseDepth (firstFragment (u0 :: s)) := by
    rcases hsB with h | ⟨f1, r2, hr, hlt⟩
    · exact Or.inl h
    · exact Or.inr ⟨f1, r2, hr, by omega⟩
  rw [run, hA, hB]
  simp only [rename_single _ _ _ hsA2, rename_single _ _ _ hsB2]
  exact process_trees_single (firstFragment (t0 :: r)) (firstFragment (u0 :: s)) alg

/-- `run` against an empty right-hand tree fails with `IndexError` from
the second `subTrees` call. -/
theorem run_empty_right (t : List Node) (alg : String) :
    run t [] alg = .error .indexError := by
  cases t with
  | nil => rfl
  | cons t0 r =>
    obtain ⟨rest, hA, _⟩ := subTrees_shape t0 r
    rw [run, hA]
    rfl

/-! ## Claim theorems -/

/-- Claim C1 (code_bug evidence): diffing the one-node tree
`[["0", "a", 0]]` against an identical copy of itself does NOT yield an
empty edit script — the generator compares the identity names `"A0"` and
`"B0"`, which never match, so the script holds one delete and one insert
of the same fragment. -/
theorem run_self_diff_script :
    run [nodeA0] [nodeA0] "nierman" =
      Except.ok [EditOp.delete [nodeA0], EditOp.insert [nodeA0]] := by
  have h := run_script [nodeA0] [nodeA0] "nierman" (by simp) (by simp)
  simpa [firstFragment] using h

/-- Claim C2 (code_bug evidence): the generator's membership test is on
identity names, not on stored fragments.  Here the source map's only
fragment `[nodeA0]` is stored, by value, in the target map as well, yet a
`Delete` of it (and an `Insert` of its copy) is emitted, because `"A0"`
is not a member of `["B0"]`. -/
theorem generator_membership_on_names :
    (∃ p ∈ [("B0", (⟨"", [nodeA0], []⟩ : TreeRec))], p.2.tree = [nodeA0]) ∧
    generateEditScript [("A0", ⟨"", [nodeA0], []⟩)] [("B0", ⟨"", [nodeA0], []⟩)]
        "nierman" =
      Except.ok [EditOp.delete [nodeA0], EditOp.insert [nodeA0]] :=
  ⟨⟨("B0", ⟨"", [nodeA0], []⟩), by simp, rfl⟩, rfl⟩

/-- Claim C3 (code_bug evidence): on the spec's end-to-end scenario
(source `a` with no children, target `a` containing `b`) the code emits
one delete of the WHOLE source tree and one insert of the WHOLE target
tree — not the expected single insert of the `b` fragment — and patching
yields the whole target fragment, not just the `b` subtree nodes. -/
theorem end_to_end_scenario_script :
    run [nodeA0, nodeATerm] [nodeA0, nodeB1, nodeBTerm] "nierman" =
      Except.ok [EditOp.delete [nodeA0, nodeATerm],
        EditOp.insert [nodeA0, nodeB1, nodeBTerm]] ∧
    patch [EditOp.delete [nodeA0, nodeATerm],
        EditOp.insert [nodeA0, nodeB1, nodeBTerm]] =
      [[nodeA0, nodeB1, nodeBTerm]] := by
  constructor
  · have h := run_script [nodeA0, nodeATerm] [nodeA0, nodeB1, nodeBTerm] "nierman"
      (by simp) (by simp)
    have hf1 : firstFragment [nodeA0, nodeATerm] = [nodeA0, nodeATerm] := by decide
    have hf2 : firstFragment [nodeA0, nodeB1, nodeBTerm] =
        [nodeA0, nodeB1, nodeBTerm] := by decide
    rw [hf1, hf2] at h
    exact h
  · rfl

/-- Claim C4: for every non-empty Tree, concatenating the fragments
produced by the Subtree Extractor, in order, yields exactly the original
Tree — no node duplicated, none dropped. -/
theorem subTrees_concat_partition (t : List Node) (frags : List (List Node))
    (h : subTrees t = Except.ok frags) : frags.flatten = t := by
  cases t with
  | nil => simp [subTrees] at h
  | cons t0 r =>
    simp only [subTrees, Except.ok.injEq] at h
    subst h
    rw [subTreesLoop_flatten]
    simp

/-- Witness for C4 at the one-node tree. -/
theorem subTrees_concat_partition_witness :
    subTrees [nodeA0] = Except.ok [[nodeA0]] ∧
      ([[nodeA0]] : List (List Node)).flatten = [nodeA0] :=
  ⟨rfl, subTrees_concat_partition [nodeA0] [[nodeA0]] rfl⟩

/-- Claim C5 (code_bug evidence): on a fragment list of length 2 the
indexer started at position 0 with no parent assigns only the single
identity `"A0"`; the second fragment never receives an identity because
the sibling scan breaks without continuing at the top level. -/
theorem rename_indexes_only_first_fragment :
    rename [[nodeA0], [nodeRootB]] 0 "" "A" [] = [("A0", ⟨"", [nodeA0], []⟩)] ∧
    ([[nodeA0], [nodeRootB]] : List (List Node)).length = 2 := by
  constructor
  · have h := rename_single [nodeA0] [[nodeRootB]] "A"
      (Or.inr ⟨[nodeRootB], [], rfl, by decide⟩)
    rw [show ("A" ++ "0" : String) = "A0" from rfl] at h
    exact h
  · rfl

/-- Claim C6: the Word Distance Calculator's substitution cost is 1 for
equal words and the absolute length difference otherwise, and
consequently the total cost of `"a b"` against `"a b"` is 2, not 0. -/
theorem wordDistance_identical_strings_cost_two :
    (∀ a b : String, wfCostUpdate a b =
      if a = b then 1 else |(a.length : Int) - (b.length : Int)|) ∧
    wagnerFisher "a b" "a b" = 2 :=
  ⟨fun _ _ => rfl, by decide⟩

/-- Claim C7: the Tree Distance from any non-empty fragment to the empty
fragment is infinite, and from any non-empty fragment to itself is 0. -/
theorem treeDist_empty_inf_self_zero (t : List Node) (h : t ≠ []) :
    treeDist t [] = Cost.inf ∧ treeDist t t = Cost.fin 0 := by
  refine ⟨by simp [treeDist], ?_⟩
  rw [treeDist, if_neg (by simp [h]), tdRowF_diag]

/-- Witness for C7 at the one-node fragment. -/
theorem treeDist_empty_inf_self_zero_witness :
    treeDist [nodeA0] [] = Cost.inf ∧ treeDist [nodeA0] [nodeA0] = Cost.fin 0 :=
  treeDist_empty_inf_self_zero [nodeA0] (by simp)

/-- Claim C8 (counterexample): on an empty Tree the Subtree Extractor
does not fail with the spec's `EmptyTreeError` — no such class exists in
the source. -/
theorem subTrees_empty_not_emptyTreeError :
    subTrees ([] : List Node) ≠ Except.error Err.emptyTreeError := by
  intro h
  simp [subTrees] at h

/-- Claim C8 (amended): on an empty Tree the Subtree Extractor fails
synchronously with the builtin index-out-of-range error (`IndexError`
from `tree[0][2]`), and the error propagates to the caller of `run`. -/
theorem subTrees_empty_raises_indexError :
    subTrees ([] : List Node) = Except.error Err.indexError ∧
    run [] [nodeA0] "nierman" = Except.error Err.indexError :=
  ⟨rfl, rfl⟩

/-- Claim C9: relabelling every label of both input trees by one common
bijection leaves the edit script structurally identical — the same
operation kinds in the same order (hence the same counts). -/
theorem run_relabel_invariance (b : String → String) (_hb : Function.Bijective b)
    (t u : List Node) (alg : String) :
    Except.map (List.map opKind)
        (run (t.map (relabelNode b)) (u.map (relabelNode b)) alg) =
      Except.map (List.map opKind) (run t u alg) := by
  by_cases ht : t = []
  · subst ht
    rfl
  · by_cases hu : u = []
    · subst hu
      rw [run_empty_right, List.map_nil, run_empty_right]
    · have h1 := run_script (t.map (relabelNode b)) (u.map (relabelNode b)) alg
        (by simpa using ht) (by simpa using hu)
      have h2 := run_script t u alg ht hu
      rw [h1, h2]
      rfl

/-- Witness for C9 with the identity bijection on the one-node trees. -/
theorem run_relabel_invariance_witness :
    Except.map (List.map opKind)
        (run ([nodeA0].map (relabelNode id)) ([nodeRootB].map (relabelNode id))
          "nierman") =
      Except.map (List.map opKind) (run [nodeA0] [nodeRootB] "nierman") :=
  run_relabel_invariance id Function.bijective_id [nodeA0] [nodeRootB] "nierman"

/-- Claim C10: for every pair of non-empty trees and any algorithm mode,
`run`'s script holds no update operation; the flattened identity lists
are `["A0"]` and `["B0"]`, whose disjoint prefixes make every membership
test fail, so the single source identity yields one delete and the
single target identity yields one insert. -/
theorem run_never_emits_update (t u : List Node) (alg : String)
    (ht : t ≠ []) (hu : u ≠ []) :
    ∃ script, run t u alg = Except.ok script ∧
      (∀ a b, EditOp.update a b ∉ script) ∧
      script.map opKind = [OpKind.delete, OpKind.insert] := by
  refine ⟨_, run_script t u alg ht hu, ?_, rfl⟩
  intro a b hmem
  simp at hmem

/-- Witness for C10 on the one-node trees in the text-aware mode. -/
theorem run_never_emits_update_witness :
    ∃ script, run [nodeA0] [nodeRootB] "wagner" = Except.ok script ∧
      (∀ a b, EditOp.update a b ∉ script) ∧
      script.map opKind = [OpKind.delete, OpKind.insert] :=
  run_never_emits_update [nodeA0] [nodeRootB] "wagner" (by simp) (by simp)

end DocDiff
